import Mathlib

/-!
Verification of the call-routing IVR backend.

This file gives a shallow embedding of the core components of the
repository (transcript normalizer and matcher, misheard-word correction,
agent candidate selector, call handoff orchestrator, lead/call state store,
CRM-sync dedup) and proves or refutes the frozen behavioural claims.

Strings are modelled as Lean `String` / `List Char`; Python string methods
(`lower`, `strip`, `replace`, `in`) are modelled explicitly below with
Python semantics (ASCII case mapping, leftmost non-overlapping replacement,
substring containment).  Database tables are modelled as lists of rows and
each SQLAlchemy query as an explicit function of those lists.  External
collaborators (CRM HTTP call, Twilio account lookups) are parameters of the
functions that consume them.
-/

/-! ## Python string primitives -/

/-- ASCII lower-casing of one character, as Python `str.lower` acts on the
ASCII range (the transcripts and configuration values handled by the
backend are ASCII). -/
def lowerChar (c : Char) : Char :=
  if 65 ≤ c.toNat ∧ c.toNat ≤ 90 then Char.ofNat (c.toNat + 32) else c

/-- ASCII upper-casing of one character (Python `str.upper` on ASCII). -/
def upperChar (c : Char) : Char :=
  if 97 ≤ c.toNat ∧ c.toNat ≤ 122 then Char.ofNat (c.toNat - 32) else c

/-- Python `str.lower` on a character list. -/
def pyLower (s : List Char) : List Char := s.map lowerChar

/-- Python `str.upper` on a character list. -/
def pyUpper (s : List Char) : List Char := s.map upperChar

/-- Python `str.lower` on a `String`. -/
def pyLowerS (s : String) : String := ⟨pyLower s.data⟩

/-- Python `str.upper` on a `String`. -/
def pyUpperS (s : String) : String := ⟨pyUpper s.data⟩

/-- Membership of a character in Python's `\s` whitespace class. -/
def isPySpace (c : Char) : Bool :=
  c.toNat = 32 ∨ c.toNat = 9 ∨ c.toNat = 10 ∨ c.toNat = 13 ∨
    c.toNat = 11 ∨ c.toNat = 12

/-- Python `str.strip`: drop leading and trailing whitespace. -/
def pyStrip (s : List Char) : List Char :=
  ((s.dropWhile isPySpace).reverse.dropWhile isPySpace).reverse

/-- Python `str.strip` on a `String`. -/
def pyStripS (s : String) : String := ⟨pyStrip s.data⟩

/-- One pass of Python `str.replace` for a non-empty pattern, scanning left
to right and replacing non-overlapping occurrences.  `fuel` bounds the
recursion; every step consumes at least one character of `s`, so
`fuel = s.length` makes the function total and exact. -/
def replaceFuel (pat rep : List Char) : Nat → List Char → List Char
  | _, [] => []
  | 0, s => s
  | fuel + 1, c :: rest =>
    if pat.isPrefixOf (c :: rest) then
      rep ++ replaceFuel pat rep fuel ((c :: rest).drop pat.length)
    else
      c :: replaceFuel pat rep fuel rest

/-- Python `s.replace(pat, rep)`.  For the empty pattern Python inserts the
replacement before every character and at the end. -/
def pyReplace (s pat rep : List Char) : List Char :=
  if pat = [] then rep ++ s.foldr (fun c acc => c :: (rep ++ acc)) []
  else replaceFuel pat rep s.length s

/-- Python substring containment `pat in hay`. -/
def pyContains (hay pat : List Char) : Bool := decide (pat <:+: hay)

/-! ## config_service.correct_misheard_words

The correction table is the cache's `corrections` dict: insertion-ordered
pairs of already-lower-cased wrong/correct words, modelled as a list of
pairs.  The source returns the input unchanged when the table is empty,
otherwise lowers the text and applies `str.replace` for each pair whose
wrong word occurs in the running result. -/

def correct_misheard_words (corrections : List (List Char × List Char))
    (text : List Char) : List Char :=
  if corrections = [] then text
  else
    corrections.foldl
      (fun result wc =>
        if pyContains result wc.1 then pyReplace result wc.1 wc.2 else result)
      (pyLower text)

/-! ## voice._normalize_transcript and voice._resolve_category

`_normalize_transcript` lowers the text, replaces every character outside
`[a-z0-9\s]` by a space, collapses whitespace runs to single spaces and
strips.  `None` input (absent form field) and the empty string both yield
the empty transcript. -/

/-- Replace each maximal whitespace run by a single space
(`re.sub(r"\s+", " ", s)`).  The boolean tracks whether the previous
character belonged to a run already emitted. -/
def collapseWsGo : List Char → Bool → List Char
  | [], _ => []
  | c :: rest, inRun =>
    if isPySpace c then
      if inRun then collapseWsGo rest true else ' ' :: collapseWsGo rest true
    else c :: collapseWsGo rest false

def collapseWs (s : List Char) : List Char := collapseWsGo s false

/-- Is the character kept by the `[^a-z0-9\s]` substitution? -/
def keepChar (c : Char) : Bool :=
  (97 ≤ c.toNat ∧ c.toNat ≤ 122) ∨ (48 ≤ c.toNat ∧ c.toNat ≤ 57) ∨ isPySpace c

def _normalize_transcript (text : Option (List Char)) : List Char :=
  match text with
  | none => []
  | some t =>
    let lowered := pyLower t
    let blanked := lowered.map (fun c => if keepChar c then c else ' ')
    pyStrip (collapseWs blanked)

/-- The fixed canonical category set accepted by the IVR
(`ALLOWED_IVR_CATEGORIES`). -/
def ALLOWED_IVR_CATEGORIES : List (List Char) :=
  [("necklace").data, ("bangles").data, ("bracelets").data, ("earrings").data,
   ("rings").data, ("accessories").data, ("curated combination").data,
   ("men jewellery").data, ("vintage diamonds").data]

/-- The `variants_to_canonical` synonym table of `_resolve_category`, in
source (dict insertion) order. -/
def variants_to_canonical : List (List Char × List Char) :=
  [(("curated combination").data, ("curated combination").data),
   (("curated combinations").data, ("curated combination").data),
   (("curated combo").data, ("curated combination").data),
   (("men jewellery").data, ("men jewellery").data),
   (("mens jewellery").data, ("men jewellery").data),
   (("men jewelry").data, ("men jewellery").data),
   (("mens jewelry").data, ("men jewellery").data),
   (("gents jewellery").data, ("men jewellery").data),
   (("gents jewelry").data, ("men jewellery").data),
   (("necklace").data, ("necklace").data),
   (("necklaces").data, ("necklace").data),
   (("bangle").data, ("bangles").data),
   (("bangles").data, ("bangles").data),
   (("bracelet").data, ("bracelets").data),
   (("bracelets").data, ("bracelets").data),
   (("earring").data, ("earrings").data),
   (("earrings").data, ("earrings").data),
   (("ring").data, ("rings").data),
   (("rings").data, ("rings").data),
   (("accessory").data, ("accessories").data),
   (("accessories").data, ("accessories").data),
   (("vintage diamonds").data, ("vintage diamonds").data),
   (("vintage diamond").data, ("vintage diamonds").data),
   (("diamond").data, ("vintage diamonds").data),
   (("diamonds").data, ("vintage diamonds").data)]

/-- Stable insertion step for sorting by key length, longest first:
`x` is placed before the first entry that is not strictly longer, so that
equal lengths keep their original relative order, matching Python's stable
`sorted(keys, key=len, reverse=True)`. -/
def insertByLenDesc (x : List Char × List Char) :
    List (List Char × List Char) → List (List Char × List Char)
  | [] => [x]
  | y :: ys =>
    if y.1.length ≤ x.1.length then x :: y :: ys else y :: insertByLenDesc x ys

def sortByLenDesc (l : List (List Char × List Char)) :
    List (List Char × List Char) :=
  l.foldr insertByLenDesc []

/-- The scan of `_resolve_category`: first variant (longest first) contained
in the transcript decides; the hit returns the canonical category when it is
allowed and no-match otherwise. -/
def matchVariant : List (List Char × List Char) → List Char → Option (List Char)
  | [], _ => none
  | (v, canon) :: rest, t =>
    if pyContains t v then
      if canon ∈ ALLOWED_IVR_CATEGORIES then some canon else none
    else matchVariant rest t

def _resolve_category (corrections : List (List Char × List Char))
    (speech : Option (List Char)) : Option (List Char) :=
  let transcript := _normalize_transcript speech
  if transcript = [] then none
  else
    let transcript2 :=
      _normalize_transcript (some (correct_misheard_words corrections transcript))
    matchVariant (sortByLenDesc variants_to_canonical) transcript2

/-! ## agent_selector: category normalization and candidate selection -/

/-- `CATEGORY_NORMALIZER` of `agent_selector`, in source order. -/
def CATEGORY_NORMALIZER : List (List Char × List Char) :=
  [(("necklace").data, ("necklace").data),
   (("necklaces").data, ("necklace").data),
   (("bangle").data, ("bangles").data),
   (("bangles").data, ("bangles").data),
   (("bracelet").data, ("bracelets").data),
   (("bracelets").data, ("bracelets").data),
   (("earring").data, ("earrings").data),
   (("earrings").data, ("earrings").data),
   (("curated combination").data, ("curated combination").data),
   (("curated combinations").data, ("curated combination").data),
   (("accessory").data, ("accessories").data),
   (("accessories").data, ("accessories").data)]

/-- Python `dict.get k` on an insertion-ordered pair list. -/
def dictGet (d : List (List Char × List Char)) (k : List Char) :
    Option (List Char) :=
  (d.find? (fun p => p.1 == k)).map (fun p => p.2)

/-- `agent_selector._normalized_category`:
`CATEGORY_NORMALIZER.get(category.lower().strip(), category.lower().strip())`. -/
def _normalized_category (category : List Char) : List Char :=
  let key := pyStrip (pyLower category)
  (dictGet CATEGORY_NORMALIZER key).getD key

/-! ### agent_selector.get_agent_candidates

The three SQL queries (specialists of the requested category, specialists of
other categories, regional default agents) are external inputs here: the
function receives the phone-number column of each query result, in query
order.  The claim proved about it quantifies over all such inputs, hence
over every database state.  The first two queries carry `.limit(limit)`,
the defaults query does not, as in the source. -/

/-- The candidate-accumulation loop shared by the three phases of
`get_agent_candidates`: append unseen numbers, and stop with `true` (the
source's early `return candidates`) once `limit` is reached. -/
def fillCandidates (limit : Nat) :
    List String → List String → Bool × List String
  | [], acc => (false, acc)
  | p :: rest, acc =>
    if p ∈ acc then fillCandidates limit rest acc
    else
      let acc2 := acc ++ [p]
      if limit ≤ acc2.length then (true, acc2)
      else fillCandidates limit rest acc2

def get_agent_candidates (specialistPhones otherPhones defaultPhones :
    List String) (limit : Nat) : List String :=
  let r1 := fillCandidates limit (specialistPhones.take limit) []
  if r1.1 then r1.2
  else
    let r2 :=
      if r1.2.length < limit then
        fillCandidates limit (otherPhones.take limit) r1.2
      else (false, r1.2)
    if r2.1 then r2.2
    else (fillCandidates limit defaultPhones r2.2).2

/-! ## voice._get_caller_id and voice._append_dial_instruction

`settings.VERIFIED_OUTBOUND_NUMBERS` (the operator allow-list) and the
provider account fetch `get_verified_numbers()` are the `cfgVerified` and
`fetchedVerified` inputs; the caller's number and the configured
`TWILIO_CALLER_ID` are `Option String` (`none` = absent form field /
unset setting). -/

/-- Python truthiness of an optional string (`None` and `""` are falsy). -/
def optTruthy : Option String → Bool
  | none => false
  | some s => s ≠ ""

/-- `_country_prefix` inside `_get_caller_id`. -/
def countryCodeOf (num : String) : String :=
  if num = "" ∨ ¬ num.startsWith ("+") then ""
  else if num.startsWith ("+91") then ("+91")
  else if num.startsWith ("+1") then ("+1")
  else num.take 3

/-- The tail of `_get_caller_id`: `match = next((v for v in available if
prefix matches), None); return match or available[0]` under
`if available_verified and candidates`. -/
def callerIdFromMatch (av candidates : List String) : Option String :=
  match av, candidates with
  | a :: av', c0 :: _ =>
    (match (a :: av').find? (fun v => countryCodeOf v == countryCodeOf c0) with
     | some m => if m = "" then some a else some m
     | none => some a)
  | _, _ => none

def _get_caller_id (cfgVerified fetchedVerified : List String)
    (preferredCfg : Option String) (candidates : List String)
    (incoming : Option String) : Option String :=
  let av0 := if cfgVerified = [] then fetchedVerified else cfgVerified
  let av1 :=
    if optTruthy incoming ∧ av0 ≠ [] then
      av0.filter (fun v => some v ≠ incoming)
    else av0
  let av2 :=
    if av1 ≠ [] then av1.filter (fun v => v ∉ candidates) else av1
  match preferredCfg with
  | some p =>
    if p ≠ "" ∧ av2 ≠ [] ∧ p ∈ av2 ∧ p ∉ candidates then some p
    else callerIdFromMatch av2 candidates
  | none => callerIdFromMatch av2 candidates

/-- The provider-markup verbs emitted by the dial builder (the `say` texts
are the configured prompts passed in by the caller of the model). -/
inductive TwimlVerb where
  | say (text : String)
  | dial (callerId : Option String) (numbers : List String)
deriving DecidableEq

def hasDial (verbs : List TwimlVerb) : Bool :=
  verbs.any (fun v => match v with | TwimlVerb.dial _ _ => true | _ => false)

/-- `_append_dial_instruction`: computes the candidates via
`get_agent_candidates(category, currency, limit=5)` (whose query results
are the first three list arguments), filters them against the verified
allow-list when one resolves, and emits either the no-agent message or the
connecting message followed by one `Dial` over the surviving candidates. -/
def _append_dial_instruction (specialistPhones otherPhones defaultPhones
    cfgVerified fetchedVerified : List String)
    (preferredCfg incoming : Option String)
    (noAgentText connectingText : String) : List TwimlVerb :=
  let candidates := get_agent_candidates specialistPhones otherPhones
    defaultPhones 5
  if candidates = [] then [TwimlVerb.say noAgentText]
  else
    let verified := if cfgVerified = [] then fetchedVerified else cfgVerified
    let candidates2 :=
      if verified ≠ [] then candidates.filter (fun c => c ∈ verified)
      else candidates
    if candidates2 = [] then [TwimlVerb.say noAgentText]
    else
      [TwimlVerb.say connectingText,
       TwimlVerb.dial
         (_get_caller_id cfgVerified fetchedVerified preferredCfg candidates2
           incoming)
         candidates2]

/-! ## voice._sync_crm_lead_for_call (CRM dedup)

State for one call identifier: whether a `Call` row exists, the audit
events stored so far for this call (event type paired with whether the
event row is linked to the `Call` row: `logger.log_event` links an event
only when the `Call` row exists at logging time), and how many times the
external CRM create was invoked.  `create_lead_in_crm` is the external
collaborator; its outcome (`some leadId` on HTTP success, `none` on any
failure or missing configuration) is the `crmResult` parameter.  On success
the collaborator itself logs `CRM_LEAD_CREATED` and the orchestrator then
logs `CRM_LEAD_SYNCED`. -/

structure CrmSyncState where
  callRowExists : Bool
  events : List (String × Bool)
  crmCalls : Nat
deriving DecidableEq

/-- Does an audit event match the orchestrator's dedup query
(`event_type IN (CRM_LEAD_CREATED, CRM_LEAD_SYNCED)` linked to the call)? -/
def crmEventLinked (e : String × Bool) : Bool :=
  e.2 && (e.1 == ("CRM_LEAD_CREATED") || e.1 == ("CRM_LEAD_SYNCED"))

def _sync_crm_lead_for_call (crmResult : Option Nat) (s : CrmSyncState) :
    CrmSyncState :=
  if s.callRowExists ∧ s.events.any crmEventLinked then s
  else
    match crmResult with
    | some _ =>
      { s with
        crmCalls := s.crmCalls + 1
        events := s.events ++
          [(("CRM_LEAD_CREATED"), s.callRowExists),
           (("CRM_LEAD_SYNCED"), s.callRowExists)] }
    | none => { s with crmCalls := s.crmCalls + 1 }

/-! ## services.leads: the per-call lead state store

Tables are lists of rows.  `one_or_none` lookups are modelled by `find?`
(the proved claims start from tables with at most one row per call
identifier, where the two agree).  `db.add + db.commit` either mutates the
found row in place (modelled by replacing the first row with that
identifier) or inserts the new row at the end.  Metadata maps keep dict
insertion order.  Optional payload keys are `Option` fields with `none`
for an absent key. -/

structure CallRow where
  id : Nat
  twilio_call_sid : String
deriving DecidableEq

structure CallLead where
  call_sid : String
  call_id : Option Nat := none
  page_context : Option String := none
  selected_category : Option String := none
  currency : Option String := none
  preferred_language : Option String := none
  user_type : Option String := none
  customer_id : Option String := none
  product_id : Option String := none
  extra_metadata : Option (List (String × String)) := none
deriving DecidableEq

/-- `LANGUAGE_BY_CURRENCY` of `services.leads`. -/
def LANGUAGE_BY_CURRENCY : List (String × String) :=
  [(("INR"), ("hi-IN")), (("USD"), ("en-IN")), (("EUR"), ("en-IN")),
   (("AED"), ("en-IN"))]

def DEFAULT_LANGUAGE : String := "en-IN"

/-- `leads._language_for_currency`. -/
def _language_for_currency (currency : Option String) : String :=
  match currency with
  | none => DEFAULT_LANGUAGE
  | some c =>
    if c = "" then DEFAULT_LANGUAGE
    else (((LANGUAGE_BY_CURRENCY.find? (fun p => p.1 == pyUpperS c)).map
      (fun p => p.2)).getD DEFAULT_LANGUAGE)

/-- Python `X or default` for an optional string (`None`/`""` falsy). -/
def pyOrStr (x : Option String) (d : String) : String :=
  match x with
  | some s => if s = "" then d else s
  | none => d

/-- Dict update `extra[k] = v` preserving insertion order. -/
def mdInsert (k v : String) : List (String × String) → List (String × String)
  | [] => [(k, v)]
  | (k', v') :: rest =>
    if k' = k then (k, v) :: rest else (k', v') :: mdInsert k v rest

/-- `extra = lead.extra_metadata or {}; extra[k] = v`. -/
def mdSet (md : Option (List (String × String))) (k v : String) :
    List (String × String) :=
  mdInsert k v (md.getD [])

def mdGet (md : Option (List (String × String))) (k : String) :
    Option String :=
  ((md.getD []).find? (fun p => p.1 == k)).map (fun p => p.2)

/-- Replace the first row carrying `sid` (the committed ORM mutation). -/
def replaceFirstBySid (sid : String) (row : CallLead) :
    List CallLead → List CallLead
  | [] => []
  | r :: rest =>
    if r.call_sid = sid then row :: rest
    else r :: replaceFirstBySid sid row rest

/-- `db.add(lead); db.commit()`: update the existing row or insert. -/
def commitBySid (sid : String) (row : CallLead) (t : List CallLead) :
    List CallLead :=
  if t.any (fun r => r.call_sid == sid) then replaceFirstBySid sid row t
  else t ++ [row]

/-- Rows stored under a given call identifier. -/
def countSid (sid : String) (t : List CallLead) : Nat :=
  (t.filter (fun r => r.call_sid == sid)).length

/-- The website-context payload accepted by `upsert_call_lead`
(`none` = key absent from the request). -/
structure LeadPayload where
  call_sid : String
  page_context : Option String := none
  currency : Option String := none
  user_type : Option String := none
  customer_id : Option String := none
  product_id : Option String := none
  metadata : Option (List (String × String)) := none
  product_category : Option String := none
  preferred_language : Option String := none

/-- `if not lead.call_id:` attach the `Call` FK when the call row exists. -/
def upsertCallIdStep (p : LeadPayload) (calls : List CallRow)
    (lead : CallLead) : CallLead :=
  if lead.call_id = none then
    match calls.find? (fun c => c.twilio_call_sid == p.call_sid) with
    | some call => { lead with call_id := some call.id }
    | none => lead
  else lead

/-- `lead.page_context = payload.get("page_context", lead.page_context or "home")`. -/
def upsertContextStep (p : LeadPayload) (lead : CallLead) : CallLead :=
  { lead with
    page_context := some (match p.page_context with
      | some pc => pc
      | none => pyOrStr lead.page_context ("home")) }

/-- `if payload.get("currency"): lead.currency = payload["currency"].upper()`. -/
def upsertCurrencyStep (p : LeadPayload) (lead : CallLead) : CallLead :=
  if optTruthy p.currency then
    { lead with currency := some (pyUpperS (p.currency.getD "")) }
  else lead

/-- The `payload.get(key, existing)` assignments for user type, customer id,
product id and metadata. -/
def upsertFieldsStep (p : LeadPayload) (lead : CallLead) : CallLead :=
  { lead with
    user_type := (match p.user_type with
      | some v => some v | none => lead.user_type)
    customer_id := (match p.customer_id with
      | some v => some v | none => lead.customer_id)
    product_id := (match p.product_id with
      | some v => some v | none => lead.product_id)
    extra_metadata := (match p.metadata with
      | some v => some v | none => lead.extra_metadata) }

/-- `if incoming_category: lead.selected_category = incoming_category.lower()`. -/
def upsertCategoryStep (p : LeadPayload) (lead : CallLead) : CallLead :=
  if optTruthy p.product_category then
    { lead with
      selected_category := some (pyLowerS (p.product_category.getD "")) }
  else lead

/-- The preferred-language derivation at the end of `upsert_call_lead`. -/
def upsertLanguageStep (p : LeadPayload) (lead : CallLead) : CallLead :=
  if optTruthy p.preferred_language then
    { lead with preferred_language := p.preferred_language }
  else if optTruthy lead.currency then
    { lead with
      preferred_language := some (_language_for_currency lead.currency) }
  else if ¬ optTruthy lead.preferred_language then
    { lead with preferred_language := some DEFAULT_LANGUAGE }
  else lead

/-- The field mutations of `upsert_call_lead` on the fetched-or-fresh row,
in source statement order. -/
def upsertLeadRow (p : LeadPayload) (calls : List CallRow)
    (existing : Option CallLead) : CallLead :=
  upsertLanguageStep p (upsertCategoryStep p (upsertFieldsStep p
    (upsertCurrencyStep p (upsertContextStep p
      (upsertCallIdStep p calls (existing.getD { call_sid := p.call_sid }))))))

def upsert_call_lead (payload : LeadPayload) (calls : List CallRow)
    (t : List CallLead) : List CallLead :=
  let existing := t.find? (fun r => r.call_sid == payload.call_sid)
  commitBySid payload.call_sid (upsertLeadRow payload calls existing) t

/-- `record_category_selection`: returns `none` and leaves the table
unchanged when no row exists for the call identifier. -/
def record_category_selection (call_sid category : String)
    (t : List CallLead) : Option CallLead × List CallLead :=
  match t.find? (fun r => r.call_sid == call_sid) with
  | none => (none, t)
  | some lead =>
    let lead1 := { lead with selected_category := some (pyLowerS category) }
    let lead2 :=
      if ¬ optTruthy lead1.preferred_language ∧ optTruthy lead1.currency then
        { lead1 with
          preferred_language := some (_language_for_currency lead1.currency) }
      else lead1
    (some lead2, replaceFirstBySid call_sid lead2 t)

def record_intent (call_sid intent : String) (t : List CallLead) :
    Option CallLead × List CallLead :=
  let lead0 := (t.find? (fun r => r.call_sid == call_sid)).getD
    { call_sid := call_sid }
  let lead1 := { lead0 with
  extra_metadata := some (mdSet lead0.extra_metadata ("intent") intent) }
  (some lead1, commitBySid call_sid lead1 t)

def record_assist_type (call_sid assist_type : String) (t : List CallLead) :
    Option CallLead × List CallLead :=
  let lead0 := (t.find? (fun r => r.call_sid == call_sid)).getD
    { call_sid := call_sid }
  let lead1 := { lead0 with
  extra_metadata := some (mdSet lead0.extra_metadata ("assist_type") assist_type) }
  (some lead1, commitBySid call_sid lead1 t)

def record_product_id (call_sid product_id : String) (t : List CallLead) :
    Option CallLead × List CallLead :=
  let lead0 := (t.find? (fun r => r.call_sid == call_sid)).getD
    { call_sid := call_sid }
  let lead1 := { lead0 with product_id := some product_id }
  (some lead1, commitBySid call_sid lead1 t)

def record_description (call_sid description : String) (t : List CallLead) :
    Option CallLead × List CallLead :=
  let lead0 := (t.find? (fun r => r.call_sid == call_sid)).getD
    { call_sid := call_sid }
  let lead1 := { lead0 with
  extra_metadata := some (mdSet lead0.extra_metadata ("caller_description") description) }
  (some lead1, commitBySid call_sid lead1 t)

def record_caller_name (call_sid caller_name : String) (t : List CallLead) :
    Option CallLead × List CallLead :=
  let lead0 := (t.find? (fun r => r.call_sid == call_sid)).getD
    { call_sid := call_sid }
  let lead1 := { lead0 with
  extra_metadata := some (mdSet lead0.extra_metadata ("caller_name") caller_name) }
  (some lead1, commitBySid call_sid lead1 t)

/-- `record_full_interaction`: only the non-`None` keyword arguments are
written, in source order. -/
def record_full_interaction (call_sid : String)
    (intent assist_type product_id product_category description :
      Option String) (t : List CallLead) : Option CallLead × List CallLead :=
  let lead0 := (t.find? (fun r => r.call_sid == call_sid)).getD
    { call_sid := call_sid }
  let lead1 := match intent with
    | some v => { lead0 with
      extra_metadata := some (mdSet lead0.extra_metadata ("intent") v) }
    | none => lead0
  let lead2 := match assist_type with
    | some v => { lead1 with
      extra_metadata := some (mdSet lead1.extra_metadata ("assist_type") v) }
    | none => lead1
  let lead3 := match product_id with
    | some v => { lead2 with product_id := some v }
    | none => lead2
  let lead4 := match product_category with
    | some v => { lead3 with selected_category := some (pyLowerS v) }
    | none => lead3
  let lead5 := match description with
    | some v => { lead4 with
      extra_metadata := some (mdSet lead4.extra_metadata ("caller_description") v) }
    | none => lead4
  (some lead5, commitBySid call_sid lead5 t)

/-- `link_lead_to_call`: no-op for a falsy call id, a missing row, or an
already-linked row. -/
def link_lead_to_call (call_sid : String) (call_id : Option Nat)
    (t : List CallLead) : List CallLead :=
  match call_id with
  | none => t
  | some cid =>
    match t.find? (fun r => r.call_sid == call_sid) with
    | none => t
    | some lead =>
      if lead.call_id ≠ none then t
      else replaceFirstBySid call_sid { lead with call_id := some cid } t

/-- Every write operation of the lead state store, for invariant claims
quantified over arbitrary operation sequences. -/
inductive StoreOp where
  | upsert (payload : LeadPayload) (calls : List CallRow)
  | categorySelection (call_sid category : String)
  | intent (call_sid intent : String)
  | assistType (call_sid assist_type : String)
  | productId (call_sid product_id : String)
  | description (call_sid description : String)
  | callerName (call_sid caller_name : String)
  | fullInteraction (call_sid : String)
      (intent assist_type product_id product_category description :
        Option String)
  | linkToCall (call_sid : String) (call_id : Option Nat)

def applyStoreOp (t : List CallLead) : StoreOp → List CallLead
  | StoreOp.upsert payload calls => upsert_call_lead payload calls t
  | StoreOp.categorySelection sid c => (record_category_selection sid c t).2
  | StoreOp.intent sid v => (record_intent sid v t).2
  | StoreOp.assistType sid v => (record_assist_type sid v t).2
  | StoreOp.productId sid v => (record_product_id sid v t).2
  | StoreOp.description sid v => (record_description sid v t).2
  | StoreOp.callerName sid v => (record_caller_name sid v t).2
  | StoreOp.fullInteraction sid i a p pc d =>
    (record_full_interaction sid i a p pc d t).2
  | StoreOp.linkToCall sid cid => link_lead_to_call sid cid t

/-! ## voice.voice_category_name (the category webhook, also served as
`/twilio/incoming-call/category`)

The handler reads only `CallSid` and `SpeechResult` from the posted form;
a `Digits` field, if present, is never read.  Its dialogue outcome is one
of: category captured (recorded, CRM synced, dial appended), invalid-input
reprompt (non-empty unrecognized speech), or bare re-ask (empty speech). -/

inductive CategoryNameOutcome where
  | captured (category : List Char)
  | invalidReask
  | emptyReask
deriving DecidableEq

def voice_category_name_outcome (corrections : List (List Char × List Char))
    (digits speech : Option (List Char)) : CategoryNameOutcome :=
  let raw := pyStrip (speech.getD [])
  match _resolve_category corrections (some raw) with
  | some c => CategoryNameOutcome.captured c
  | none =>
    if raw ≠ [] then CategoryNameOutcome.invalidReask
    else CategoryNameOutcome.emptyReask

/-! ## Predicates used by the claims -/

/-- Every character is fixed by ASCII lower-casing. -/
def CharsLower (s : List Char) : Prop := ∀ c ∈ s, lowerChar c = c

instance (s : List Char) : Decidable (CharsLower s) := by
  unfold CharsLower
  infer_instance

/-- An absent or lower-case-invariant stored string. -/
def isLowerOptB : Option String → Bool
  | none => true
  | some s => pyLowerS s == s

/-- Invariant: every stored `selected_category` is lower-case. -/
def LowerInv (t : List CallLead) : Prop :=
  ∀ row ∈ t, isLowerOptB row.selected_category = true

instance (t : List CallLead) : Decidable (LowerInv t) := by
  unfold LowerInv
  infer_instance

/-! # Supporting lemmas -/

theorem char_toNat_ofNat_valid (n : Nat) (h : n < 55296) :
    (Char.ofNat n).toNat = n := by
  unfold Char.ofNat
  split
  · simp [Char.ofNatAux, Char.toNat, UInt32.toNat, BitVec.toNat_ofNatLt]
  · rename_i hn
    exact absurd (Or.inl h) hn

theorem lowerChar_idem (c : Char) : lowerChar (lowerChar c) = lowerChar c := by
  unfold lowerChar
  by_cases h : 65 ≤ c.toNat ∧ c.toNat ≤ 90
  · have ht : (Char.ofNat (c.toNat + 32)).toNat = c.toNat + 32 :=
      char_toNat_ofNat_valid _ (by omega)
    rw [if_pos h, if_neg (by rw [ht]; omega)]
  · rw [if_neg h, if_neg h]

theorem charsLower_pyLower (s : List Char) : CharsLower (pyLower s) := by
  intro c hc
  rcases List.mem_map.mp hc with ⟨a, _, rfl⟩
  exact lowerChar_idem a

theorem pyLower_eq_self (s : List Char) (h : CharsLower s) : pyLower s = s := by
  unfold pyLower
  calc s.map lowerChar = s.map id := List.map_congr_left h
  _ = s := List.map_id s

theorem pyLower_idem (s : List Char) : pyLower (pyLower s) = pyLower s :=
  pyLower_eq_self _ (charsLower_pyLower s)

theorem pyLowerS_idem (s : String) : pyLowerS (pyLowerS s) = pyLowerS s := by
  unfold pyLowerS
  rw [pyLower_idem]

theorem mem_replaceFuel (pat rep : List Char) (fuel : Nat) (s : List Char)
    (c : Char) (hc : c ∈ replaceFuel pat rep fuel s) : c ∈ rep ∨ c ∈ s := by
  induction fuel generalizing s with
  | zero =>
    cases s with
    | nil => simp [replaceFuel] at hc
    | cons a rest => exact Or.inr hc
  | succ fuel ih =>
    cases s with
    | nil => simp [replaceFuel] at hc
    | cons a rest =>
      rw [replaceFuel] at hc
      by_cases hp : pat.isPrefixOf (a :: rest)
      · rw [if_pos hp] at hc
        rcases List.mem_append.mp hc with h | h
        · exact Or.inl h
        · rcases ih _ h with h2 | h2
          · exact Or.inl h2
          · exact Or.inr (List.mem_of_mem_drop h2)
      · rw [if_neg hp] at hc
        rcases List.mem_cons.mp hc with rfl | h
        · exact Or.inr (List.mem_cons_self _ _)
        · rcases ih _ h with h2 | h2
          · exact Or.inl h2
          · exact Or.inr (List.mem_cons_of_mem _ h2)

theorem mem_foldr_interleave (rep s : List Char) (c : Char)
    (h : c ∈ s.foldr (fun ch acc => ch :: (rep ++ acc)) []) :
    c ∈ rep ∨ c ∈ s := by
  induction s with
  | nil => simp at h
  | cons a rest ih =>
    simp only [List.foldr_cons] at h
    rcases List.mem_cons.mp h with rfl | h2
    · exact Or.inr (List.mem_cons_self _ _)
    · rcases List.mem_append.mp h2 with h3 | h3
      · exact Or.inl h3
      · rcases ih h3 with h4 | h4
        · exact Or.inl h4
        · exact Or.inr (List.mem_cons_of_mem _ h4)

theorem mem_pyReplace (s pat rep : List Char) (c : Char)
    (hc : c ∈ pyReplace s pat rep) : c ∈ rep ∨ c ∈ s := by
  unfold pyReplace at hc
  by_cases hp : pat = []
  · rw [if_pos hp] at hc
    rcases List.mem_append.mp hc with h | h
    · exact Or.inl h
    · exact mem_foldr_interleave rep s c h
  · rw [if_neg hp] at hc
    exact mem_replaceFuel pat rep s.length s c hc

theorem charsLower_correct_misheard
    (corrections : List (List Char × List Char)) (t : List Char)
    (hne : corrections ≠ [])
    (hreps : ∀ wc ∈ corrections, CharsLower wc.2) :
    CharsLower (correct_misheard_words corrections t) := by
  unfold correct_misheard_words
  rw [if_neg hne]
  have base := charsLower_pyLower t
  generalize pyLower t = acc at base ⊢
  clear hne
  induction corrections generalizing acc with
  | nil => exact base
  | cons wc rest ih =>
    simp only [List.foldl_cons]
    apply ih
    · intro p hp
      exact hreps p (List.mem_cons_of_mem _ hp)
    · by_cases hg : pyContains acc wc.1 = true
      · rw [if_pos hg]
        intro c hc
        rcases mem_pyReplace _ _ _ _ hc with h | h
        · exact hreps wc (List.mem_cons_self _ _) c h
        · exact base c h
      · rw [if_neg hg]
        exact base

theorem correct_misheard_no_hits
    (corrections : List (List Char × List Char)) (r : List Char)
    (hnone : ∀ wc ∈ corrections, pyContains r wc.1 = false) :
    corrections.foldl
      (fun result wc =>
        if pyContains result wc.1 then pyReplace result wc.1 wc.2 else result)
      r = r := by
  induction corrections with
  | nil => rfl
  | cons wc rest ih =>
    simp only [List.foldl_cons]
    rw [if_neg (by simp [hnone wc (List.mem_cons_self _ _)])]
    exact ih (fun p hp => hnone p (List.mem_cons_of_mem _ hp))

theorem matchVariant_mem (l : List (List Char × List Char)) (t c : List Char)
    (h : matchVariant l t = some c) : c ∈ ALLOWED_IVR_CATEGORIES := by
  induction l with
  | nil => simp [matchVariant] at h
  | cons p rest ih =>
    obtain ⟨v, canon⟩ := p
    rw [matchVariant] at h
    by_cases h1 : pyContains t v = true
    · rw [if_pos h1] at h
      by_cases h2 : canon ∈ ALLOWED_IVR_CATEGORIES
      · rw [if_pos h2] at h
        cases h
        exact h2
      · rw [if_neg h2] at h
        cases h
    · rw [if_neg h1] at h
      exact ih h

/-! # Claim C7 — idempotence of the misheard-word correction -/

/-- C7, counterexample: the claim quantifies over every correction table
and transcript, but with the operator-configurable table `{"b": "ab"}` the
first application of `correct_misheard_words` to `"b"` yields `"ab"` and
the second yields `"aab"`, so correcting an already-corrected transcript
changes it. -/
theorem c7_counterexample :
    correct_misheard_words [((("b").data), (("ab").data))]
        (correct_misheard_words [((("b").data), (("ab").data))] (("b").data))
      ≠ correct_misheard_words [((("b").data), (("ab").data))] (("b").data) := by
  decide

/-- C7, amended: applying the correction table to an already-corrected
transcript leaves it unchanged provided the table's replacement words are
lower-case (as the configuration cache guarantees) and no wrong word of the
table occurs in the corrected transcript — without the latter condition a
replacement can reintroduce or contain a wrong word and the second
application rewrites again. -/
theorem c7_correct_misheard_words_idempotent
    (corrections : List (List Char × List Char)) (t : List Char)
    (hreps : ∀ wc ∈ corrections, CharsLower wc.2)
    (hnone : ∀ wc ∈ corrections,
      pyContains (correct_misheard_words corrections t) wc.1 = false) :
    correct_misheard_words corrections (correct_misheard_words corrections t)
      = correct_misheard_words corrections t := by
  by_cases hne : corrections = []
  · subst hne
    rfl
  · have hlow : CharsLower (correct_misheard_words corrections t) :=
      charsLower_correct_misheard corrections t hne hreps
    generalize hr : correct_misheard_words corrections t = r at hlow hnone ⊢
    unfold correct_misheard_words
    rw [if_neg hne, pyLower_eq_self _ hlow]
    exact correct_misheard_no_hits corrections r hnone

theorem c7_correct_misheard_words_idempotent_witness :
    (∀ wc ∈ [((("neklace").data : List Char), (("necklace").data))],
      CharsLower wc.2) ∧
    (∀ wc ∈ [((("neklace").data : List Char), (("necklace").data))],
      pyContains
        (correct_misheard_words
          [((("neklace").data), (("necklace").data))]
          (("neklace pricing").data)) wc.1 = false) ∧
    correct_misheard_words [((("neklace").data), (("necklace").data))]
        (correct_misheard_words
          [((("neklace").data), (("necklace").data))]
          (("neklace pricing").data))
      = correct_misheard_words
          [((("neklace").data), (("necklace").data))]
          (("neklace pricing").data) :=
  ⟨by decide, by decide,
    c7_correct_misheard_words_idempotent _ _ (by decide) (by decide)⟩

/-! # Claim C8 — selector normalization vs matcher canonical mapping -/

/-- C8, counterexample: the matcher resolves the spoken string `"ring"` to
the canonical category `"rings"`, but the selector's
`_normalized_category` maps `"ring"` to itself (its normalizer table has no
entry for `"ring"`), so the two mappings disagree on a string the matcher
resolves. -/
theorem c8_counterexample :
    _resolve_category [] (some (("ring").data)) = some (("rings").data) ∧
    _normalized_category (("ring").data) ≠ ("rings").data := by
  constructor
  · decide
  · decide

/-- C8, amended: the selector's normalization agrees with the matcher on
every category the matcher can output: whenever `_resolve_category`
resolves to a canonical category, `_normalized_category` maps that
canonical category to itself, so selector lookups performed on
matcher-resolved categories use the same canonical value — but the two
functions disagree on raw synonym strings such as `"ring"`. -/
theorem c8_normalized_category_fixes_matcher_output
    (corrections : List (List Char × List Char)) (speech : Option (List Char))
    (c : List Char) (h : _resolve_category corrections speech = some c) :
    _normalized_category c = c := by
  have hmem : c ∈ ALLOWED_IVR_CATEGORIES := by
    simp only [_resolve_category] at h
    split at h
    · cases h
    · exact matchVariant_mem _ _ _ h
  simp only [ALLOWED_IVR_CATEGORIES, List.mem_cons, List.not_mem_nil,
    or_false] at hmem
  rcases hmem with rfl | rfl | rfl | rfl | rfl | rfl | rfl | rfl | rfl <;> decide

theorem c8_normalized_category_fixes_matcher_output_witness :
    _resolve_category [] (some (("necklaces please").data))
      = some (("necklace").data) ∧
    _normalized_category (("necklace").data) = ("necklace").data :=
  ⟨by decide,
    c8_normalized_category_fixes_matcher_output [] (some (("necklaces please").data))
      (("necklace").data) (by decide)⟩

/-! # Claim C9 — DTMF digits in the category flow -/

/-- C9, counterexample: on the category webhook (the `/twilio` category
flow) with `digits = "2"` and speech `"necklace"`, the outcome is the
category `necklace` — not `bangles` — because the handler never reads the
`Digits` form field; so a pressed digit does not map to a category. -/
theorem c9_counterexample :
    voice_category_name_outcome [] (some (("2").data))
        (some (("necklace").data))
      = CategoryNameOutcome.captured (("necklace").data) ∧
    (("necklace").data : List Char) ≠ ("bangles").data := by
  constructor
  · decide
  · decide

/-- C9, amended: the deployed category flow ignores DTMF digits entirely —
the outcome is a function of the speech transcript alone — and spoken
number words (`"won"`, `"two"`) are not matched either: they hit the
invalid-input reprompt branch, with only jewellery keyword matching (after
misheard corrections) selecting a category. -/
theorem c9_digits_ignored :
    (∀ (corrections : List (List Char × List Char))
      (d d' speech : Option (List Char)),
      voice_category_name_outcome corrections d speech =
        voice_category_name_outcome corrections d' speech) ∧
    voice_category_name_outcome [] (some (("2").data)) (some (("won").data))
      = CategoryNameOutcome.invalidReask ∧
    voice_category_name_outcome [] (some (("2").data)) (some (("two").data))
      = CategoryNameOutcome.invalidReask := by
  refine ⟨fun _ _ _ _ => rfl, by decide, by decide⟩

/-! # Claim C1 — candidate lists are duplicate-free and capped -/

theorem fillCandidates_invariant (limit : Nat) (ps : List String) :
    ∀ acc : List String, acc.Nodup → acc.length < limit →
    ((fillCandidates limit ps acc).2).Nodup ∧
    ((fillCandidates limit ps acc).1 = true →
      (fillCandidates limit ps acc).2.length = limit) ∧
    ((fillCandidates limit ps acc).1 = false →
      (fillCandidates limit ps acc).2.length < limit) := by
  induction ps with
  | nil =>
    intro acc hnd hlt
    refine ⟨hnd, ?_, fun _ => hlt⟩
    intro h
    simp [fillCandidates] at h
  | cons p rest ih =>
    intro acc hnd hlt
    rw [fillCandidates]
    by_cases hmem : p ∈ acc
    · rw [if_pos hmem]
      exact ih acc hnd hlt
    · rw [if_neg hmem]
      have hnd2 : (acc ++ [p]).Nodup := by
        simp [List.nodup_append, hnd, hmem]
      by_cases hlim : limit ≤ (acc ++ [p]).length
      · simp only [if_pos hlim]
        refine ⟨hnd2, fun _ => ?_, fun h => ?_⟩
        · simp only [List.length_append, List.length_singleton]
          simp only [List.length_append, List.length_singleton] at hlim
          omega
        · simp at h
      · simp only [if_neg hlim]
        apply ih
        · exact hnd2
        · omega

/-- C1: for every database state (every possible result of the three
queries) and every positive limit, `get_agent_candidates` returns a list
without duplicate phone numbers whose length never exceeds the limit. -/
theorem c1_get_agent_candidates_nodup_le_limit
    (sp op dp : List String) (limit : Nat) (hpos : 0 < limit) :
    (get_agent_candidates sp op dp limit).Nodup ∧
    (get_agent_candidates sp op dp limit).length ≤ limit := by
  simp only [get_agent_candidates]
  obtain ⟨nd1, ht1, hf1⟩ :=
    fillCandidates_invariant limit (sp.take limit) [] List.nodup_nil
      (by simpa using hpos)
  by_cases b1 : (fillCandidates limit (sp.take limit) []).1 = true
  · rw [if_pos b1]
    exact ⟨nd1, le_of_eq (ht1 b1)⟩
  · rw [if_neg b1]
    have hlt1 : (fillCandidates limit (sp.take limit) []).2.length < limit :=
      hf1 (by simpa using b1)
    rw [if_pos hlt1]
    obtain ⟨nd2, ht2, hf2⟩ :=
      fillCandidates_invariant limit (op.take limit) _ nd1 hlt1
    by_cases b2 : (fillCandidates limit (op.take limit)
      (fillCandidates limit (sp.take limit) []).2).1 = true
    · rw [if_pos b2]
      exact ⟨nd2, le_of_eq (ht2 b2)⟩
    · rw [if_neg b2]
      have hlt2 := hf2 (by simpa using b2)
      obtain ⟨nd3, ht3, hf3⟩ := fillCandidates_invariant limit dp _ nd2 hlt2
      refine ⟨nd3, ?_⟩
      cases b3 : (fillCandidates limit dp (fillCandidates limit (op.take limit)
        (fillCandidates limit (sp.take limit) []).2).2).1 with
      | true => exact le_of_eq (ht3 b3)
      | false => exact le_of_lt (hf3 b3)

theorem c1_get_agent_candidates_nodup_le_limit_witness :
    0 < 5 ∧
    ((get_agent_candidates ["+15550100", "+15550100", "+15550101"] []
        ["+15550102"] 5).Nodup ∧
      (get_agent_candidates ["+15550100", "+15550100", "+15550101"] []
        ["+15550102"] 5).length ≤ 5) :=
  ⟨by decide,
    c1_get_agent_candidates_nodup_le_limit _ _ _ 5 (by decide)⟩

/-! # Claim C2 — CRM lead sync fires at most once per call -/

/-- C2: when the `Call` row exists and no CRM audit event is recorded yet,
a first pass through the connect state with a successful CRM create invokes
the collaborator exactly once and records the audit events; any second pass
(via any dialogue path, with any CRM outcome) finds the recorded
`CRM_LEAD_CREATED`/`CRM_LEAD_SYNCED` event and leaves the state untouched —
in particular it performs no further CRM call. -/
theorem c2_crm_sync_at_most_once (s : CrmSyncState)
    (h1 : s.callRowExists = true)
    (h2 : s.events.any crmEventLinked = false) (id : Nat) (r2 : Option Nat) :
    (_sync_crm_lead_for_call (some id) s).crmCalls = s.crmCalls + 1 ∧
    _sync_crm_lead_for_call r2 (_sync_crm_lead_for_call (some id) s) =
      _sync_crm_lead_for_call (some id) s := by
  have hc : ¬((s.callRowExists = true) ∧ (s.events.any crmEventLinked = true))
      := by simp [h2]
  have hstep : _sync_crm_lead_for_call (some id) s =
      { s with
        crmCalls := s.crmCalls + 1
        events := s.events ++
          [(("CRM_LEAD_CREATED"), s.callRowExists),
           (("CRM_LEAD_SYNCED"), s.callRowExists)] } := by
    simp only [_sync_crm_lead_for_call]
    rw [if_neg hc]
  constructor
  · rw [hstep]
  · rw [hstep]
    simp only [_sync_crm_lead_for_call]
    rw [if_pos]
    constructor
    · simpa using h1
    · simp [List.any_append, crmEventLinked, h1]

theorem c2_crm_sync_at_most_once_witness :
    (({ callRowExists := true, events := [], crmCalls := 0 } :
        CrmSyncState).callRowExists = true) ∧
    (({ callRowExists := true, events := [], crmCalls := 0 } :
        CrmSyncState).events.any crmEventLinked = false) ∧
    ((_sync_crm_lead_for_call (some 7)
        { callRowExists := true, events := [], crmCalls := 0 }).crmCalls
      = 0 + 1 ∧
     _sync_crm_lead_for_call none (_sync_crm_lead_for_call (some 7)
        { callRowExists := true, events := [], crmCalls := 0 })
      = _sync_crm_lead_for_call (some 7)
        { callRowExists := true, events := [], crmCalls := 0 }) :=
  ⟨rfl, rfl,
    c2_crm_sync_at_most_once
      { callRowExists := true, events := [], crmCalls := 0 }
      (by decide) (by decide) 7 none⟩

/-! # Claim C3 — verified-number filtering in the dial builder -/

/-- C3: when a verified-outbound-number list is available (the configured
allow-list, or the provider fetch when the configured one is empty), the
dial builder keeps exactly the candidates present in that list, in order
(`List.filter` preserves order); if the filtered list is empty the response
is the no-agent message alone and contains no `Dial` verb, otherwise it is
the connecting message followed by one `Dial` over precisely the filtered
candidates. -/
theorem c3_append_dial_verified_filtering
    (sp op dp cfg fetched : List String) (pref incoming : Option String)
    (noAgentText connectingText : String)
    (hv : (if cfg = [] then fetched else cfg) ≠ []) :
    ((get_agent_candidates sp op dp 5).filter
        (fun c => c ∈ (if cfg = [] then fetched else cfg)) = [] →
      _append_dial_instruction sp op dp cfg fetched pref incoming
          noAgentText connectingText = [TwimlVerb.say noAgentText] ∧
      hasDial (_append_dial_instruction sp op dp cfg fetched pref incoming
          noAgentText connectingText) = false) ∧
    ((get_agent_candidates sp op dp 5).filter
        (fun c => c ∈ (if cfg = [] then fetched else cfg)) ≠ [] →
      _append_dial_instruction sp op dp cfg fetched pref incoming
          noAgentText connectingText =
        [TwimlVerb.say connectingText,
         TwimlVerb.dial
           (_get_caller_id cfg fetched pref
             ((get_agent_candidates sp op dp 5).filter
               (fun c => c ∈ (if cfg = [] then fetched else cfg)))
             incoming)
           ((get_agent_candidates sp op dp 5).filter
             (fun c => c ∈ (if cfg = [] then fetched else cfg)))]) := by
  by_cases h0 : get_agent_candidates sp op dp 5 = []
  · have hfilter : (get_agent_candidates sp op dp 5).filter
        (fun c => c ∈ (if cfg = [] then fetched else cfg)) = [] := by
      rw [h0]
      rfl
    have hout : _append_dial_instruction sp op dp cfg fetched pref incoming
        noAgentText connectingText = [TwimlVerb.say noAgentText] := by
      simp only [_append_dial_instruction]
      rw [if_pos h0]
    refine ⟨fun _ => ⟨hout, ?_⟩, fun hne => absurd hfilter hne⟩
    rw [hout]
    rfl
  · by_cases h1 : (get_agent_candidates sp op dp 5).filter
        (fun c => c ∈ (if cfg = [] then fetched else cfg)) = []
    · have hout : _append_dial_instruction sp op dp cfg fetched pref incoming
          noAgentText connectingText = [TwimlVerb.say noAgentText] := by
        simp only [_append_dial_instruction]
        rw [if_neg h0, if_pos hv, if_pos h1]
      refine ⟨fun _ => ⟨hout, ?_⟩, fun hne => absurd h1 hne⟩
      rw [hout]
      rfl
    · have hout : _append_dial_instruction sp op dp cfg fetched pref incoming
          noAgentText connectingText =
          [TwimlVerb.say connectingText,
           TwimlVerb.dial
             (_get_caller_id cfg fetched pref
               ((get_agent_candidates sp op dp 5).filter
                 (fun c => c ∈ (if cfg = [] then fetched else cfg)))
               incoming)
             ((get_agent_candidates sp op dp 5).filter
               (fun c => c ∈ (if cfg = [] then fetched else cfg)))] := by
        simp only [_append_dial_instruction]
        rw [if_neg h0, if_pos hv, if_neg h1]
      exact ⟨fun habs => absurd habs h1, fun _ => hout⟩

theorem c3_append_dial_verified_filtering_witness :
    ((if ([] : List String) = [] then ["+1A", "+1C"] else []) ≠ []) ∧
    (_append_dial_instruction ["+1A", "+1B"] [] [] [] ["+1A", "+1C"]
        none none ("no agent") ("connecting") =
      [TwimlVerb.say ("connecting"),
       TwimlVerb.dial
         (_get_caller_id [] ["+1A", "+1C"] none
           ((get_agent_candidates ["+1A", "+1B"] [] [] 5).filter
             (fun c => c ∈ (if ([] : List String) = [] then ["+1A", "+1C"]
               else [])))
           none)
         ((get_agent_candidates ["+1A", "+1B"] [] [] 5).filter
           (fun c => c ∈ (if ([] : List String) = [] then ["+1A", "+1C"]
             else [])))]) :=
  ⟨by decide,
    (c3_append_dial_verified_filtering ["+1A", "+1B"] [] [] [] ["+1A", "+1C"]
      none none ("no agent") ("connecting") (by decide)).2 (by decide)⟩

/-! # Claim C4 — caller-ID selection exclusions -/

theorem callerIdFromMatch_mem (av cands : List String) (m : String)
    (h : callerIdFromMatch av cands = some m) : m ∈ av := by
  cases av with
  | nil => cases cands <;> simp [callerIdFromMatch] at h
  | cons a av' =>
    cases cands with
    | nil => simp [callerIdFromMatch] at h
    | cons c0 cs =>
      rw [callerIdFromMatch] at h
      cases hf : (a :: av').find?
          (fun v => countryCodeOf v == countryCodeOf c0) with
      | none =>
        rw [hf] at h
        cases h
        exact List.mem_cons_self _ _
      | some m' =>
        rw [hf] at h
        dsimp only at h
        by_cases hm : m' = ""
        · rw [if_pos hm] at h
          cases h
          exact List.mem_cons_self _ _
        · rw [if_neg hm] at h
          cases h
          exact List.mem_of_find?_eq_some hf

/-- C4: the selected caller ID is never the inbound caller's own number and
never a number in the candidate list (for any real, i.e. non-empty,
inbound number); and when the caller's inbound number is the only verified
number, selection yields `none` (provider default) rather than reusing the
caller's number. -/
theorem c4_caller_id_exclusions (cfg fetched : List String)
    (pref : Option String) (candidates : List String)
    (incoming : Option String) (hin : incoming ≠ some "") :
    (∀ cid, _get_caller_id cfg fetched pref candidates incoming = some cid →
      incoming ≠ some cid ∧ cid ∉ candidates) ∧
    (∀ n, n ≠ "" → incoming = some n →
      (if cfg = [] then fetched else cfg) = [n] →
      _get_caller_id cfg fetched pref candidates incoming = none) := by
  constructor
  · intro cid hcid
    simp only [_get_caller_id] at hcid
    set E0 := if cfg = [] then fetched else cfg with hE0
    set E1 := if optTruthy incoming ∧ E0 ≠ [] then
      E0.filter (fun v => some v ≠ incoming) else E0 with hE1
    set E2 := if E1 ≠ [] then E1.filter (fun v => v ∉ candidates) else E1
      with hE2
    have hA : ∀ v ∈ E1, incoming ≠ some v := by
      intro v hv
      rw [hE1] at hv
      by_cases hc : optTruthy incoming ∧ E0 ≠ []
      · rw [if_pos hc] at hv
        exact (of_decide_eq_true (List.mem_filter.mp hv).2).symm
      · rw [if_neg hc] at hv
        cases hi : incoming with
        | none => simp
        | some s =>
          have hs : s ≠ "" := fun h => hin (by rw [hi, h])
          rw [not_and] at hc
          have hE0nil : E0 = [] := by
            by_contra hne
            exact hc (by rw [hi]; simp [optTruthy, hs]) hne
          rw [hE0nil] at hv
          simp at hv
    have hB : ∀ v ∈ E2, incoming ≠ some v ∧ v ∉ candidates := by
      intro v hv
      rw [hE2] at hv
      by_cases hc : E1 ≠ []
      · rw [if_pos hc] at hv
        obtain ⟨hv1, hp⟩ := List.mem_filter.mp hv
        exact ⟨hA v hv1, of_decide_eq_true hp⟩
      · rw [if_neg hc] at hv
        rw [not_ne_iff.mp hc] at hv
        simp at hv
    cases pref with
    | none => exact hB cid (callerIdFromMatch_mem _ _ _ hcid)
    | some p =>
      dsimp only at hcid
      by_cases hcond : p ≠ "" ∧ E2 ≠ [] ∧ p ∈ E2 ∧ p ∉ candidates
      · rw [if_pos hcond] at hcid
        simp only [Option.some.injEq] at hcid
        subst hcid
        exact hB p hcond.2.2.1
      · rw [if_neg hcond] at hcid
        exact hB cid (callerIdFromMatch_mem _ _ _ hcid)
  · intro n hn hi hav
    simp only [_get_caller_id]
    rw [hav, hi]
    have h1 : (if optTruthy (some n) ∧ ([n] : List String) ≠ [] then
        [n].filter (fun v => some v ≠ some n) else [n]) = [] := by
      rw [if_pos ⟨by simp [optTruthy, hn], by simp⟩]
      simp
    rw [h1]
    cases pref <;> simp [callerIdFromMatch]

theorem c4_caller_id_exclusions_witness :
    ((some ("+15550001") : Option String) ≠ some "") ∧
    _get_caller_id ["+15550001"] [] none ["+15550002"]
        (some ("+15550001")) = none :=
  ⟨by decide,
    (c4_caller_id_exclusions ["+15550001"] [] none ["+15550002"]
      (some ("+15550001")) (by decide)).2 ("+15550001") (by decide) rfl
      (by decide)⟩

/-! # Claim C5 — at most one Lead row per call identifier -/

theorem countSid_cons (sid : String) (r : CallLead) (rest : List CallLead) :
    countSid sid (r :: rest) =
      (if (r.call_sid == sid) = true then 1 else 0) + countSid sid rest := by
  simp only [countSid, List.filter_cons]
  split <;> simp [Nat.add_comm]

theorem countSid_append_single (sid : String) (t : List CallLead)
    (row : CallLead) :
    countSid sid (t ++ [row]) =
      countSid sid t + (if (row.call_sid == sid) = true then 1 else 0) := by
  simp only [countSid, List.filter_append, List.length_append]
  congr 1
  simp only [List.filter_cons, List.filter_nil]
  split <;> simp

theorem countSid_replaceFirst (sid sid' : String) (row : CallLead)
    (t : List CallLead) (hrow : row.call_sid = sid') :
    countSid sid (replaceFirstBySid sid' row t) = countSid sid t := by
  induction t with
  | nil => rfl
  | cons r rest ih =>
    rw [replaceFirstBySid]
    by_cases h : r.call_sid = sid'
    · rw [if_pos h, countSid_cons, countSid_cons, hrow, h]
    · rw [if_neg h, countSid_cons, countSid_cons, ih]

theorem countSid_pos_iff_any (sid : String) (t : List CallLead) :
    0 < countSid sid t ↔ t.any (fun r => r.call_sid == sid) = true := by
  simp only [countSid, List.length_pos, Ne, List.filter_eq_nil,
    List.any_eq_true]
  push_neg
  constructor
  · rintro ⟨r, hr, hp⟩
    exact ⟨r, hr, hp⟩
  · rintro ⟨r, hr, hp⟩
    exact ⟨r, hr, hp⟩

theorem commit_count (sid sid' : String) (row : CallLead) (t : List CallLead)
    (hrow : row.call_sid = sid') :
    countSid sid (commitBySid sid' row t) =
      if 0 < countSid sid' t then countSid sid t
      else countSid sid t + (if sid' = sid then 1 else 0) := by
  unfold commitBySid
  by_cases hany : t.any (fun r => r.call_sid == sid') = true
  · rw [if_pos hany, countSid_replaceFirst sid sid' row t hrow,
      if_pos ((countSid_pos_iff_any sid' t).mpr hany)]
  · rw [if_neg hany, countSid_append_single,
      if_neg (fun hpos => hany ((countSid_pos_iff_any sid' t).mp hpos))]
    congr 1
    rw [hrow]
    by_cases hs : sid' = sid
    · rw [if_pos hs, if_pos (by simp [hs])]
    · rw [if_neg hs, if_neg (by simp [hs])]

theorem upsertCallIdStep_call_sid (p : LeadPayload) (calls : List CallRow)
    (lead : CallLead) :
    (upsertCallIdStep p calls lead).call_sid = lead.call_sid := by
  unfold upsertCallIdStep
  repeat' split
  all_goals rfl

theorem upsertCurrencyStep_call_sid (p : LeadPayload) (lead : CallLead) :
    (upsertCurrencyStep p lead).call_sid = lead.call_sid := by
  unfold upsertCurrencyStep
  split
  all_goals rfl

theorem upsertCategoryStep_call_sid (p : LeadPayload) (lead : CallLead) :
    (upsertCategoryStep p lead).call_sid = lead.call_sid := by
  unfold upsertCategoryStep
  split
  all_goals rfl

theorem upsertLanguageStep_call_sid (p : LeadPayload) (lead : CallLead) :
    (upsertLanguageStep p lead).call_sid = lead.call_sid := by
  unfold upsertLanguageStep
  repeat' split
  all_goals rfl

theorem upsertLeadRow_call_sid (p : LeadPayload) (calls : List CallRow)
    (existing : Option CallLead)
    (h : ∀ e, existing = some e → e.call_sid = p.call_sid) :
    (upsertLeadRow p calls existing).call_sid = p.call_sid := by
  unfold upsertLeadRow
  rw [upsertLanguageStep_call_sid, upsertCategoryStep_call_sid]
  show (upsertCurrencyStep p _).call_sid = p.call_sid
  rw [upsertCurrencyStep_call_sid]
  show (upsertCallIdStep p calls _).call_sid = p.call_sid
  rw [upsertCallIdStep_call_sid]
  cases existing with
  | none => rfl
  | some e => exact h e rfl

theorem upsert_countSid (sid : String) (p : LeadPayload)
    (calls : List CallRow) (t : List CallLead) :
    countSid sid (upsert_call_lead p calls t) =
      if 0 < countSid p.call_sid t then countSid sid t
      else countSid sid t + (if p.call_sid = sid then 1 else 0) := by
  unfold upsert_call_lead
  apply commit_count
  apply upsertLeadRow_call_sid
  intro e he
  have := List.find?_some he
  simpa using this

theorem upsert_preserves_one (sid : String) (p : LeadPayload)
    (calls : List CallRow) (t : List CallLead)
    (h : countSid sid t = 1) :
    countSid sid (upsert_call_lead p calls t) = 1 := by
  rw [upsert_countSid]
  by_cases hp : 0 < countSid p.call_sid t
  · rw [if_pos hp]
    exact h
  · rw [if_neg hp]
    have hne : p.call_sid ≠ sid := by
      intro heq
      rw [heq] at hp
      omega
    rw [if_neg hne]
    simp [h]

/-- C5: starting from a table with no row for the call identifier, one
upsert creates exactly one row, a second upsert for the same identifier
mutates that row (the count stays 1), and any further sequence of upserts
(for this or other identifiers) keeps exactly one row for the identifier. -/
theorem foldl_upserts_preserves_one (sid : String)
    (steps : List (LeadPayload × List CallRow)) (t0 : List CallLead)
    (h : countSid sid t0 = 1) :
    countSid sid (steps.foldl (fun acc s => upsert_call_lead s.1 s.2 acc) t0)
      = 1 := by
  induction steps generalizing t0 with
  | nil => exact h
  | cons s rest ih =>
    rw [List.foldl_cons]
    exact ih _ (upsert_preserves_one sid s.1 s.2 t0 h)

/-- C5: starting from a table with no row for the call identifier, one
upsert creates exactly one row, a second upsert for the same identifier
mutates that row (the count stays 1), and any further sequence of upserts
(for this or other identifiers) keeps exactly one row for the identifier. -/
theorem c5_upsert_call_lead_row_count (sid : String) (t : List CallLead)
    (p1 p2 : LeadPayload) (calls1 calls2 : List CallRow)
    (h0 : countSid sid t = 0) (h1 : p1.call_sid = sid)
    (h2 : p2.call_sid = sid) :
    countSid sid (upsert_call_lead p1 calls1 t) = 1 ∧
    countSid sid
      (upsert_call_lead p2 calls2 (upsert_call_lead p1 calls1 t)) = 1 ∧
    (∀ steps : List (LeadPayload × List CallRow),
      countSid sid (steps.foldl (fun acc s => upsert_call_lead s.1 s.2 acc)
        (upsert_call_lead p1 calls1 t)) = 1) := by
  have hone : countSid sid (upsert_call_lead p1 calls1 t) = 1 := by
    rw [upsert_countSid, h1, if_neg (by omega), h0, if_pos rfl]
  exact ⟨hone, upsert_preserves_one sid p2 calls2 _ hone,
    fun steps => foldl_upserts_preserves_one sid steps _ hone⟩

theorem c5_upsert_call_lead_row_count_witness :
    countSid ("CA1") [] = 0 ∧
    ({ call_sid := "CA1" } : LeadPayload).call_sid = ("CA1") ∧
    (countSid ("CA1")
        (upsert_call_lead { call_sid := "CA1" } [] []) = 1 ∧
      countSid ("CA1")
        (upsert_call_lead { call_sid := "CA1", product_category := some "x" }
          [] (upsert_call_lead { call_sid := "CA1" } [] [])) = 1 ∧
      (∀ steps : List (LeadPayload × List CallRow),
        countSid ("CA1")
          (steps.foldl (fun acc s => upsert_call_lead s.1 s.2 acc)
            (upsert_call_lead { call_sid := "CA1" } [] [])) = 1)) :=
  ⟨rfl, rfl,
    c5_upsert_call_lead_row_count ("CA1") []
      { call_sid := "CA1" } { call_sid := "CA1", product_category := some "x" }
      [] [] rfl rfl rfl⟩

/-! # Claim C6 — writes tolerate a missing row by creating it -/

theorem count0_find_none (sid : String) (t : List CallLead)
    (h : countSid sid t = 0) :
    t.find? (fun r => r.call_sid == sid) = none := by
  rw [List.find?_eq_none]
  intro r hr hp
  have hpos : 0 < countSid sid t :=
    (countSid_pos_iff_any sid t).mpr (List.any_eq_true.mpr ⟨r, hr, hp⟩)
  omega

theorem commit_count0_append (sid : String) (row : CallLead)
    (t : List CallLead) (h : countSid sid t = 0) :
    commitBySid sid row t = t ++ [row] := by
  unfold commitBySid
  rw [if_neg]
  intro hany
  have hpos : 0 < countSid sid t := (countSid_pos_iff_any sid t).mpr hany
  omega

theorem countSid_after_create (sid : String) (row : CallLead)
    (t : List CallLead) (h : countSid sid t = 0) (hrow : row.call_sid = sid) :
    countSid sid (t ++ [row]) = 1 := by
  rw [countSid_append_single, h, hrow]
  simp

/-- C6, counterexample: `record_category_selection` invoked with a call
identifier that has no Lead row returns `None` and leaves the store
unchanged — it silently does nothing instead of creating the row and
applying the write. -/
theorem c6_counterexample :
    (record_category_selection ("CA1") ("rings") []).1 = none ∧
    (record_category_selection ("CA1") ("rings") []).2 = [] :=
  ⟨rfl, rfl⟩

/-- C6, amended: of the state-store write operations, the intent, assist
type, product id, description and caller-name recorders invoked on an
unknown call identifier create the Lead row on demand and apply the write
(the store gains exactly the one new row holding the written value) — but
the category-selection recorder does not: it returns `None` and leaves the
store unchanged when no row exists. -/
theorem c6_writes_create_on_demand (sid v : String) (t : List CallLead)
    (h : countSid sid t = 0) :
    ((record_intent sid v t).2 =
        t ++ [{ call_sid := sid, extra_metadata := some [(("intent"), v)] }] ∧
      countSid sid (record_intent sid v t).2 = 1) ∧
    ((record_assist_type sid v t).2 =
        t ++ [{ call_sid := sid,
                extra_metadata := some [(("assist_type"), v)] }] ∧
      countSid sid (record_assist_type sid v t).2 = 1) ∧
    ((record_product_id sid v t).2 =
        t ++ [{ call_sid := sid, product_id := some v }] ∧
      countSid sid (record_product_id sid v t).2 = 1) ∧
    ((record_description sid v t).2 =
        t ++ [{ call_sid := sid,
                extra_metadata := some [(("caller_description"), v)] }] ∧
      countSid sid (record_description sid v t).2 = 1) ∧
    ((record_caller_name sid v t).2 =
        t ++ [{ call_sid := sid,
                extra_metadata := some [(("caller_name"), v)] }] ∧
      countSid sid (record_caller_name sid v t).2 = 1) ∧
    (record_category_selection sid v t).2 = t := by
  have hf := count0_find_none sid t h
  refine ⟨⟨?_, ?_⟩, ⟨?_, ?_⟩, ⟨?_, ?_⟩, ⟨?_, ?_⟩, ⟨?_, ?_⟩, ?_⟩
  all_goals
    simp only [record_intent, record_assist_type, record_product_id,
      record_description, record_caller_name, record_category_selection, hf,
      Option.getD_none]
  · exact commit_count0_append sid _ t h
  · rw [commit_count0_append sid _ t h]
    exact countSid_after_create sid _ t h rfl
  · exact commit_count0_append sid _ t h
  · rw [commit_count0_append sid _ t h]
    exact countSid_after_create sid _ t h rfl
  · exact commit_count0_append sid _ t h
  · rw [commit_count0_append sid _ t h]
    exact countSid_after_create sid _ t h rfl
  · exact commit_count0_append sid _ t h
  · rw [commit_count0_append sid _ t h]
    exact countSid_after_create sid _ t h rfl
  · exact commit_count0_append sid _ t h
  · rw [commit_count0_append sid _ t h]
    exact countSid_after_create sid _ t h rfl

theorem c6_writes_create_on_demand_witness :
    countSid ("CA1") [] = 0 ∧
    countSid ("CA1") (record_intent ("CA1") ("store") []).2 = 1 ∧
    (record_category_selection ("CA1") ("store") []).2 = [] :=
  ⟨rfl,
    ((c6_writes_create_on_demand ("CA1") ("store") [] rfl).1).2,
    (c6_writes_create_on_demand ("CA1") ("store") [] rfl).2.2.2.2.2⟩

/-! # Claim C10 — selected_category is always stored lower-case -/

theorem isLower_pyLowerS (x : String) :
    isLowerOptB (some (pyLowerS x)) = true := by
  simp [isLowerOptB, pyLowerS_idem]

theorem mem_replaceFirstBySid (sid : String) (row : CallLead)
    (t : List CallLead) (x : CallLead) (hx : x ∈ replaceFirstBySid sid row t) :
    x = row ∨ x ∈ t := by
  induction t with
  | nil => simp [replaceFirstBySid] at hx
  | cons r rest ih =>
    rw [replaceFirstBySid] at hx
    by_cases h : r.call_sid = sid
    · rw [if_pos h] at hx
      rcases List.mem_cons.mp hx with rfl | h2
      · exact Or.inl rfl
      · exact Or.inr (List.mem_cons_of_mem _ h2)
    · rw [if_neg h] at hx
      rcases List.mem_cons.mp hx with rfl | h2
      · exact Or.inr (List.mem_cons_self _ _)
      · rcases ih h2 with h3 | h3
        · exact Or.inl h3
        · exact Or.inr (List.mem_cons_of_mem _ h3)

theorem mem_commitBySid (sid : String) (row : CallLead) (t : List CallLead)
    (x : CallLead) (hx : x ∈ commitBySid sid row t) : x = row ∨ x ∈ t := by
  unfold commitBySid at hx
  split at hx
  · exact mem_replaceFirstBySid sid row t x hx
  · rcases List.mem_append.mp hx with h | h
    · exact Or.inr h
    · exact Or.inl (List.mem_singleton.mp h)

theorem lowerInv_commit (sid : String) (row : CallLead) (t : List CallLead)
    (hinv : LowerInv t) (hrow : isLowerOptB row.selected_category = true) :
    LowerInv (commitBySid sid row t) := by
  intro x hx
  rcases mem_commitBySid sid row t x hx with rfl | h
  · exact hrow
  · exact hinv x h

theorem lowerInv_replaceFirst (sid : String) (row : CallLead)
    (t : List CallLead) (hinv : LowerInv t)
    (hrow : isLowerOptB row.selected_category = true) :
    LowerInv (replaceFirstBySid sid row t) := by
  intro x hx
  rcases mem_replaceFirstBySid sid row t x hx with rfl | h
  · exact hrow
  · exact hinv x h

theorem lead0_selcat_lower (sid : String) (t : List CallLead)
    (hinv : LowerInv t) :
    isLowerOptB (((t.find? (fun r => r.call_sid == sid)).getD
      { call_sid := sid }).selected_category) = true := by
  cases hf : t.find? (fun r => r.call_sid == sid) with
  | none => rfl
  | some e => exact hinv e (List.mem_of_find?_eq_some hf)

theorem upsertCallIdStep_selcat (p : LeadPayload) (calls : List CallRow)
    (lead : CallLead) :
    (upsertCallIdStep p calls lead).selected_category =
      lead.selected_category := by
  unfold upsertCallIdStep
  repeat' split
  all_goals rfl

theorem upsertCurrencyStep_selcat (p : LeadPayload) (lead : CallLead) :
    (upsertCurrencyStep p lead).selected_category = lead.selected_category := by
  unfold upsertCurrencyStep
  split
  all_goals rfl

theorem upsertContextStep_selcat (p : LeadPayload) (lead : CallLead) :
    (upsertContextStep p lead).selected_category = lead.selected_category :=
  rfl

theorem upsertFieldsStep_selcat (p : LeadPayload) (lead : CallLead) :
    (upsertFieldsStep p lead).selected_category = lead.selected_category :=
  rfl

theorem upsertLanguageStep_selcat (p : LeadPayload) (lead : CallLead) :
    (upsertLanguageStep p lead).selected_category = lead.selected_category := by
  unfold upsertLanguageStep
  repeat' split
  all_goals rfl

theorem upsertLeadRow_selcat_lower (p : LeadPayload) (calls : List CallRow)
    (existing : Option CallLead)
    (hex : isLowerOptB ((existing.getD
      { call_sid := p.call_sid }).selected_category) = true) :
    isLowerOptB ((upsertLeadRow p calls existing).selected_category)
      = true := by
  unfold upsertLeadRow
  rw [upsertLanguageStep_selcat]
  unfold upsertCategoryStep
  split
  · simp [isLowerOptB, pyLowerS_idem]
  · rw [upsertFieldsStep_selcat, upsertCurrencyStep_selcat,
      upsertContextStep_selcat, upsertCallIdStep_selcat]
    exact hex

theorem upsert_call_lead_lowerInv (p : LeadPayload) (calls : List CallRow)
    (t : List CallLead) (hinv : LowerInv t) :
    LowerInv (upsert_call_lead p calls t) := by
  unfold upsert_call_lead
  apply lowerInv_commit _ _ _ hinv
  apply upsertLeadRow_selcat_lower
  exact lead0_selcat_lower p.call_sid t hinv

theorem record_category_selection_lowerInv (sid c : String)
    (t : List CallLead) (hinv : LowerInv t) :
    LowerInv (record_category_selection sid c t).2 := by
  unfold record_category_selection
  cases hf : t.find? (fun r => r.call_sid == sid) with
  | none => exact hinv
  | some lead =>
    dsimp only
    apply lowerInv_replaceFirst _ _ _ hinv
    split
    · exact isLower_pyLowerS c
    · exact isLower_pyLowerS c

theorem record_intent_lowerInv (sid v : String) (t : List CallLead)
    (hinv : LowerInv t) : LowerInv (record_intent sid v t).2 := by
  unfold record_intent
  exact lowerInv_commit _ _ _ hinv (lead0_selcat_lower sid t hinv)

theorem record_assist_type_lowerInv (sid v : String) (t : List CallLead)
    (hinv : LowerInv t) : LowerInv (record_assist_type sid v t).2 := by
  unfold record_assist_type
  exact lowerInv_commit _ _ _ hinv (lead0_selcat_lower sid t hinv)

theorem record_product_id_lowerInv (sid v : String) (t : List CallLead)
    (hinv : LowerInv t) : LowerInv (record_product_id sid v t).2 := by
  unfold record_product_id
  exact lowerInv_commit _ _ _ hinv (lead0_selcat_lower sid t hinv)

theorem record_description_lowerInv (sid v : String) (t : List CallLead)
    (hinv : LowerInv t) : LowerInv (record_description sid v t).2 := by
  unfold record_description
  exact lowerInv_commit _ _ _ hinv (lead0_selcat_lower sid t hinv)

theorem record_caller_name_lowerInv (sid v : String) (t : List CallLead)
    (hinv : LowerInv t) : LowerInv (record_caller_name sid v t).2 := by
  unfold record_caller_name
  exact lowerInv_commit _ _ _ hinv (lead0_selcat_lower sid t hinv)

theorem record_full_interaction_lowerInv (sid : String)
    (i a pid pc d : Option String) (t : List CallLead) (hinv : LowerInv t) :
    LowerInv (record_full_interaction sid i a pid pc d t).2 := by
  unfold record_full_interaction
  apply lowerInv_commit _ _ _ hinv
  cases pc with
  | some v => cases d <;> exact isLower_pyLowerS v
  | none =>
    cases d <;> cases pid <;> cases i <;> cases a <;>
      exact lead0_selcat_lower sid t hinv

theorem link_lead_to_call_lowerInv (sid : String) (cid : Option Nat)
    (t : List CallLead) (hinv : LowerInv t) :
    LowerInv (link_lead_to_call sid cid t) := by
  unfold link_lead_to_call
  cases cid with
  | none => exact hinv
  | some c =>
    cases hf : t.find? (fun r => r.call_sid == sid) with
    | none => exact hinv
    | some lead =>
      dsimp only
      split
      · exact hinv
      · apply lowerInv_replaceFirst _ _ _ hinv
        exact hinv lead (List.mem_of_find?_eq_some hf)

theorem applyStoreOp_lowerInv (t : List CallLead) (op : StoreOp)
    (hinv : LowerInv t) : LowerInv (applyStoreOp t op) := by
  cases op with
  | upsert p calls => exact upsert_call_lead_lowerInv p calls t hinv
  | categorySelection sid c =>
    exact record_category_selection_lowerInv sid c t hinv
  | intent sid v => exact record_intent_lowerInv sid v t hinv
  | assistType sid v => exact record_assist_type_lowerInv sid v t hinv
  | productId sid v => exact record_product_id_lowerInv sid v t hinv
  | description sid v => exact record_description_lowerInv sid v t hinv
  | callerName sid v => exact record_caller_name_lowerInv sid v t hinv
  | fullInteraction sid i a pid pc d =>
    exact record_full_interaction_lowerInv sid i a pid pc d t hinv
  | linkToCall sid cid => exact link_lead_to_call_lowerInv sid cid t hinv

/-- C10: every operation that writes `selected_category` (context upsert,
category-selection recording, and the bulk interaction recorder) stores the
value lower-cased, and no other store operation touches the field; hence
after any sequence of store operations, starting from any table satisfying
the invariant (e.g. the empty table), every stored `selected_category` is a
lower-case string. -/
theorem c10_selected_category_always_lowercase (ops : List StoreOp)
    (t : List CallLead) (hinv : LowerInv t) :
    LowerInv (ops.foldl applyStoreOp t) := by
  induction ops generalizing t with
  | nil => exact hinv
  | cons op rest ih =>
    rw [List.foldl_cons]
    exact ih _ (applyStoreOp_lowerInv t op hinv)

theorem c10_selected_category_always_lowercase_witness :
    LowerInv [] ∧
    LowerInv ([StoreOp.upsert
        { call_sid := "CA1", product_category := some ("RiNgS") } [],
      StoreOp.categorySelection ("CA1") ("NECKLACE"),
      StoreOp.intent ("CA1") ("store")].foldl applyStoreOp []) :=
  ⟨by decide,
    c10_selected_category_always_lowercase _ [] (by decide)⟩
